import Mathlib

/-!
Verification of the RAG service layer of the note-taking application
(`rag/services.py`): document parser, text chunker, vector-store deletion,
document indexing and question answering.

Modelling conventions.  Python strings are modelled as `List Char` where
index arithmetic matters (the chunker) and as `String` where only equality
matters (messages, prompts).  Python integers are unbounded, so slice
indices are `Int` with Python slice-clamping semantics made explicit.
Fallible external calls (file reads, embedding models, the vector store,
the hosted language model) are modelled as `Except String` valued
functions supplied by an environment record; a Python `try/except` block
becomes an explicit match on those results.  The chunker loop, whose
termination is one of the properties under study, is written with explicit
fuel; `none` means the fuel ran out.
-/

/-! ## Python primitives -/

/-- Python slice-bound normalisation for a list of length `n`: a negative
index counts from the end and is clamped below by `0`; a nonnegative index
is clamped above by `n`. -/
def pyBound (n : Nat) (i : Int) : Nat :=
  if i < 0 then (i + n).toNat else min i.toNat n

/-- Python slice `l[a:b]` with full negative-index and clamping rules. -/
def pySlice (l : List Char) (a b : Int) : List Char :=
  (l.take (pyBound l.length b)).drop (pyBound l.length a)

/-- The whitespace characters stripped by Python `str.strip()` (ASCII part). -/
def isPySpace (c : Char) : Bool :=
  c = ' ' || c = '\t' || c = '\n' || c = '\x0b' || c = '\x0c' || c = '\r'

/-- Python `str.strip()`: remove leading and trailing whitespace. -/
def pyStrip (l : List Char) : List Char :=
  ((l.dropWhile isPySpace).reverse.dropWhile isPySpace).reverse

/-- Search positions `0..k` for the rightmost occurrence of `m` in `w`
(an occurrence at `p` means `m` is a prefix of `w.drop p`). -/
def rfindAux (w m : List Char) : Nat → Option Nat
  | 0 => if m.isPrefixOf w then some 0 else none
  | k + 1 => if m.isPrefixOf (w.drop (k + 1)) then some (k + 1) else rfindAux w m k

/-- Python `w.rfind(m)` for nonempty `m`: index of the rightmost occurrence
of `m` in `w`, or `none` (Python returns `-1`, which the caller treats the
same way). -/
def pyRfind (w m : List Char) : Option Nat :=
  rfindAux w m w.length

/-! ## TextChunker (`rag/services.py`, `TextChunker.chunk`) -/

/-- The sentence-end markers tried in order by the chunker:
`". "`, `".\n"`, `"! "`, `"? "`. -/
def markerList : List (List Char) :=
  [['.', ' '], ['.', '\n'], ['!', ' '], ['?', ' ']]

/-- One marker test of the chunker loop body: `last_punct = window.rfind(punct)`
followed by `if last_punct > chunk_size // 2: end = start + last_punct + len(punct)`.
Returns the window-relative adjusted end on success. -/
def tryMarker (chunk_size : Nat) (w m : List Char) : Option Nat :=
  (pyRfind w m).bind fun p =>
    if chunk_size / 2 < p then some (p + m.length) else none

/-- The `for punct in ['. ', '.\n', '! ', '? ']` loop with its `break`:
the first marker whose rightmost occurrence lies strictly after the midpoint
wins. -/
def adjustEnd (chunk_size : Nat) (w : List Char) : Option Nat :=
  markerList.findSome? (tryMarker chunk_size w)

/-- The value of `end` after the sentence-boundary adjustment for the window
starting at `start`: the raw boundary `start + chunk_size`, adjusted only
when it falls short of the end of the text and a marker is found. -/
def boundaryEnd (chunk_size : Nat) (text : List Char) (start : Int) : Int :=
  if start + (chunk_size : Int) < (text.length : Int) then
    match adjustEnd chunk_size (pySlice text start (start + chunk_size)) with
    | some e => start + e
    | none => start + chunk_size
  else start + chunk_size

/-- The `while start < text_length` loop of `TextChunker.chunk`, with fuel.
Each iteration slices `text[start:end]`, strips it, appends it when nonempty,
and continues from `end - chunk_overlap`. -/
def chunkGo (chunk_size chunk_overlap : Nat) (text : List Char) :
    Nat → Int → List (List Char) → Option (List (List Char))
  | 0, start, acc =>
    if start < (text.length : Int) then none else some acc
  | fuel + 1, start, acc =>
    if start < (text.length : Int) then
      chunkGo chunk_size chunk_overlap text fuel
        (boundaryEnd chunk_size text start - chunk_overlap)
        (if (pyStrip (pySlice text start (boundaryEnd chunk_size text start))).isEmpty then acc
         else acc ++ [pyStrip (pySlice text start (boundaryEnd chunk_size text start))])
    else some acc

/-- `TextChunker.chunk`: split `text` into overlapping chunks.  The loop is
run with `text.length` fuel, which suffices whenever each iteration advances
`start` by at least one. -/
def TextChunker.chunk (chunk_size chunk_overlap : Nat) (text : List Char) :
    Option (List (List Char)) :=
  chunkGo chunk_size chunk_overlap text text.length 0 []

/-- `m` occurs in `w` at position `p`. -/
def occursAt (w m : List Char) (p : Nat) : Bool :=
  m.isPrefixOf (w.drop p)

/-- The rightmost occurrence of any sentence-end marker in the window,
with the length of the marker found there, regardless of marker order. -/
def lastAnyMarker (w : List Char) : Option (Nat × Nat) :=
  markerList.foldl
    (fun best m =>
      match pyRfind w m with
      | none => best
      | some p =>
        match best with
        | none => some (p, m.length)
        | some (q, ml) => if q < p then some (p, m.length) else some (q, ml))
    none

/-- Modelled from the spec: "search backward within the current window for
the last occurrence of one of the sentence-end markers; if a marker is found
at or after the window's midpoint, cut immediately after it instead of at
the raw boundary."  This is the comparison definition for the cut rule, not
the code's rule. -/
def specAdjustEnd (chunk_size : Nat) (w : List Char) : Option Nat :=
  match lastAnyMarker w with
  | some (p, ml) => if chunk_size / 2 ≤ p then some (p + ml) else none
  | none => none

/-- Modelled from the spec: the window end position under the spec's cut
rule (`specAdjustEnd`), for comparison with `boundaryEnd`. -/
def specBoundaryEnd (chunk_size : Nat) (text : List Char) (start : Int) : Int :=
  let rawEnd : Int := start + chunk_size
  if rawEnd < (text.length : Int) then
    match specAdjustEnd chunk_size (pySlice text start rawEnd) with
    | some e => start + e
    | none => rawEnd
  else rawEnd

/-- A text on which the chunker loop never terminates with
`chunk_size = 10, chunk_overlap = 8`: in the window `"aaaaaa. aa"` the
marker `". "` sits at index `6 > 10 / 2`, so `end = 8` and the next start
is `8 - 8 = 0` again. -/
def loopText : List Char := "aaaaaa. aaa".data

/-- A text whose first window is `"aaaaaa. ! "`: the rightmost marker
occurrence of any kind is `"! "` at index 8, but the code cuts after the
`". "` at index 6 because `". "` is tried first. -/
def priorityText : List Char := "aaaaaa. ! zz".data

/-! ## Byte decoding (`DocumentParser.parse_txt`) -/

/-- A UTF-8 continuation byte. -/
def isCont (b : Nat) : Bool := 0x80 ≤ b && b < 0xC0

/-- Strict UTF-8 decoding of a byte sequence, as Python's
`open(..., encoding="utf-8")` performs it: truncated sequences, stray
continuation bytes, overlong encodings, surrogates and code points beyond
U+10FFFF are decode errors. -/
def utf8Decode : List Nat → Option (List Char)
  | [] => some []
  | b :: rest =>
    if b < 0x80 then
      (utf8Decode rest).map (fun cs => Char.ofNat b :: cs)
    else if b < 0xC2 then none
    else if b < 0xE0 then
      match rest with
      | c1 :: rest2 =>
        if isCont c1 then
          (utf8Decode rest2).map (fun cs =>
            Char.ofNat ((b - 0xC0) * 0x40 + (c1 - 0x80)) :: cs)
        else none
      | [] => none
    else if b < 0xF0 then
      match rest with
      | c1 :: c2 :: rest2 =>
        if (if b = 0xE0 then decide (0xA0 ≤ c1) && decide (c1 < 0xC0)
            else if b = 0xED then decide (0x80 ≤ c1) && decide (c1 < 0xA0)
            else isCont c1) && isCont c2 then
          (utf8Decode rest2).map (fun cs =>
            Char.ofNat ((b - 0xE0) * 0x1000 + (c1 - 0x80) * 0x40 + (c2 - 0x80)) :: cs)
        else none
      | _ => none
    else if b < 0xF5 then
      match rest with
      | c1 :: c2 :: c3 :: rest2 =>
        if (if b = 0xF0 then decide (0x90 ≤ c1) && decide (c1 < 0xC0)
            else if b = 0xF4 then decide (0x80 ≤ c1) && decide (c1 < 0x90)
            else isCont c1) && isCont c2 && isCont c3 then
          (utf8Decode rest2).map (fun cs =>
            Char.ofNat ((b - 0xF0) * 0x40000 + (c1 - 0x80) * 0x1000 +
              (c2 - 0x80) * 0x40 + (c3 - 0x80)) :: cs)
        else none
      | _ => none
    else none

/-- Latin-1 decoding: every byte maps to the code point of the same value,
so it succeeds on every genuine byte sequence. -/
def latin1Decode : List Nat → Option (List Char)
  | [] => some []
  | b :: rest =>
    if b < 0x100 then (latin1Decode rest).map (fun cs => Char.ofNat b :: cs)
    else none

/-- The decoding step of `DocumentParser.parse_txt`: try UTF-8; on a
`UnicodeDecodeError` reopen the file as Latin-1. -/
def decodeTxt (bytes : List Nat) : Option (List Char) :=
  match utf8Decode bytes with
  | some cs => some cs
  | none => latin1Decode bytes

/-! ## DocumentParser (`rag/services.py`, `DocumentParser`) -/

/-- Abstract file contents as the parsing libraries deliver them (pypdf
page texts, python-docx paragraph texts, raw bytes of a text file); each
access either raises or returns the extracted material. -/
structure FileSystem where
  pdfPages : String → Except String (List (Option String))
  docxParagraphs : String → Except String (List String)
  txtBytes : String → Except String (List Nat)

/-- Parser outcomes: `unsupported` is the
`ValueError("Unsupported file type: ...")` raised before any file access;
`failure` is a propagated I/O or library error. -/
inductive ParseError
  | unsupported (extension : String)
  | failure (msg : String)
deriving DecidableEq

/-- `DocumentParser.parse_pdf`: extract text page by page, skip pages that
yield `None` or empty text, join the rest with blank lines; library errors
propagate (the `except` clause logs and re-raises). -/
def DocumentParser.parse_pdf (fs : FileSystem) (file_path : String) :
    Except ParseError String :=
  match fs.pdfPages file_path with
  | .error e => .error (.failure e)
  | .ok pages =>
    .ok (String.intercalate "\n\n"
      (pages.filterMap fun t =>
        match t with
        | some s => if s.isEmpty then none else some s
        | none => none))

/-- `DocumentParser.parse_docx`: keep paragraphs whose stripped text is
nonempty, join with blank lines; library errors propagate. -/
def DocumentParser.parse_docx (fs : FileSystem) (file_path : String) :
    Except ParseError String :=
  match fs.docxParagraphs file_path with
  | .error e => .error (.failure e)
  | .ok paras =>
    .ok (String.intercalate "\n\n"
      (paras.filter fun p => !(pyStrip p.data).isEmpty))

/-- `DocumentParser.parse_txt`: read the bytes and decode, UTF-8 first with
a Latin-1 fallback on `UnicodeDecodeError`.  The final `failure` branch is
reachable only if the fallback also fails, which `latin1_total` rules out
for genuine byte sequences. -/
def DocumentParser.parse_txt (fs : FileSystem) (file_path : String) :
    Except ParseError String :=
  match fs.txtBytes file_path with
  | .error e => .error (.failure e)
  | .ok bytes =>
    match decodeTxt bytes with
    | some cs => .ok (String.mk cs)
    | none => .error (.failure "UnicodeDecodeError")

/-- Python `str.lower()` (ASCII range, which covers the extensions). -/
def pyLower (s : String) : String := String.mk (s.data.map Char.toLower)

/-- The keys of the `parsers` dict in `DocumentParser.parse`. -/
def supportedFormats : List String := ["pdf", "docx", "txt"]

/-- `DocumentParser.parse`: dispatch on the lowercased extension
(`parsers.get(extension.lower())`); an unknown extension raises
`ValueError` without touching the file system. -/
def DocumentParser.parse (fs : FileSystem) (file_path extension : String) :
    Except ParseError String :=
  if pyLower extension = "pdf" then DocumentParser.parse_pdf fs file_path
  else if pyLower extension = "docx" then DocumentParser.parse_docx fs file_path
  else if pyLower extension = "txt" then DocumentParser.parse_txt fs file_path
  else .error (.unsupported extension)

/-- A concrete file system used by witnesses: a one-byte text file whose
byte `0xFF` is not valid UTF-8 but is valid Latin-1. -/
def fsWitness : FileSystem where
  pdfPages := fun _ => .ok []
  docxParagraphs := fun _ => .ok []
  txtBytes := fun _ => .ok [0xFF]

/-! ## Vector store (`ChromaDocumentStore` as used by `RagService`) -/

/-- The metadata attached to every stored chunk. -/
structure ChunkMeta where
  user_id : Int
  document_id : Int
  document_name : String
  chunk_index : Nat
deriving DecidableEq

/-- A persisted vector-store record: an opaque id, the chunk content and
its metadata (the embedding vector plays no role in the claims and is
omitted from the record). -/
structure StoredEntry where
  id : Nat
  content : String
  meta : ChunkMeta
deriving DecidableEq

/-- `document_store.filter_documents` with the filter
`{"meta.document_id": document_id, "meta.user_id": user_id}`: the entries
matching both fields. -/
def filter_documents (store : List StoredEntry) (document_id user_id : Int) :
    List StoredEntry :=
  store.filter fun e => e.meta.document_id == document_id && e.meta.user_id == user_id

/-- `document_store.delete_documents(document_ids=ids)`: remove the entries
whose id is listed. -/
def delete_documents (store : List StoredEntry) (ids : List Nat) : List StoredEntry :=
  store.filter fun e => !(ids.contains e.id)

/-- `RagService.delete_document_embeddings`: fetch the ids matching the
document and user, then delete them by id; when nothing matches no delete
call is made. -/
def RagService.delete_document_embeddings (document_id user_id : Int)
    (store : List StoredEntry) : List StoredEntry :=
  if (filter_documents store document_id user_id).isEmpty then store
  else delete_documents store ((filter_documents store document_id user_id).map (·.id))

/-- A concrete two-entry store used by the deletion witness: one entry of
document 5 of user 1 and one entry of document 6 of user 1. -/
def storeWitness : List StoredEntry :=
  [⟨1, "c1", ⟨1, 5, "a", 0⟩⟩, ⟨2, "c2", ⟨1, 6, "b", 0⟩⟩]

/-! ## Messages and prompt assembly (`RagService.answer_question`) -/

/-- An apostrophe character, used to spell the fixed user-facing strings. -/
def apos : Char := Char.ofNat 39

/-- The fixed no-results message of `answer_question`. -/
def noInfoMsg : String :=
  "I couldn" ++ apos.toString ++ "t find any relevant information in the selected documents."

/-- The fixed configuration-error message for a missing or placeholder key. -/
def configMsg : String :=
  "Error: Google API key is not configured. Please set GOOGLE_API_KEY in your .env file."

/-- The fixed message for a falsy model response. -/
def noRespMsg : String :=
  "I couldn" ++ apos.toString ++ "t generate a response. Please try again."

/-- The catch-all handler message
`f"An error occurred while processing your question: ..."` with the
stringified exception appended. -/
def genericMsg (e : String) : String :=
  "An error occurred while processing your question: " ++ e

/-- One entry of `chat_history`: a dict read with `.get("role", "user")`
and `.get("content", "")`, so either key may be absent. -/
structure ChatMessage where
  role : Option String
  content : Option String

/-- Python `str.capitalize()`: first character upper-cased, the rest
lower-cased (ASCII range). -/
def pyCapitalize (s : String) : String :=
  match s.data with
  | [] => ""
  | c :: rest => String.mk (c.toUpper :: rest.map Char.toLower)

/-- Render one history entry as `"<Role>: <content>"`. -/
def renderMessage (m : ChatMessage) : String :=
  pyCapitalize (m.role.getD "user") ++ ": " ++ m.content.getD ""

/-- Render the last ten history entries joined by newlines; falsy (empty)
history renders as the empty string. -/
def renderHistory (chat_history : List ChatMessage) : String :=
  if chat_history.isEmpty then ""
  else String.intercalate "\n"
    ((chat_history.drop (chat_history.length - 10)).map renderMessage)

/-- The retrieved chunk contents joined with the visible separator. -/
def contextOf (docs : List String) : String :=
  String.intercalate "\n\n---\n\n" docs

/-- The prompt template of `answer_question` with its three holes filled;
empty history text is replaced by the fixed placeholder. -/
def buildPrompt (history_text context question : String) : String :=
  "You are a helpful assistant answering questions based on the provided documents.\n\nRecent conversation:\n"
    ++ (if history_text.isEmpty then "No previous history." else history_text)
    ++ "\n\nRelevant document excerpts:\n" ++ context
    ++ "\n\nUser question: " ++ question
    ++ "\n\nPlease provide a clear, accurate answer based on the document excerpts above. If the documents don"
    ++ apos.toString
    ++ "t contain enough information to answer the question, say so clearly.\n\nAnswer:"

/-- The metadata filter built by `answer_question`: user-id equality AND
document-id membership in the selected set. -/
structure RagFilter where
  user_id : Int
  document_ids : List Int
deriving DecidableEq

/-- `not api_key or api_key == "your-google-api-key-here"`: a missing,
empty or placeholder credential. -/
def isBadApiKey : Option String → Bool
  | none => true
  | some s => s.isEmpty || s == "your-google-api-key-here"

/-- The external collaborators of `answer_question`: the query embedder,
the filtered retriever (called with `top_k = 5`), the configured credential
and the hosted-model call (`ok none` models a falsy response or falsy
`response.text`).  Each fallible call carries the stringified exception on
its error side. -/
structure AnswerEnv where
  embedQuery : String → Except String (List Int)
  retrieve : List Int → RagFilter → Nat → Except String (List String)
  apiKey : Option String
  generate : String → Except String (Option String)

/-- `RagService.answer_question`.  The whole body runs inside one `try`
whose handler returns `genericMsg`, so the function is total; the returned
flag records whether the language-model call was attempted (the call-count
mock used by the spec's tests). -/
def RagService.answer_question (env : AnswerEnv) (question : String)
    (user_id : Int) (selected_document_ids : List Int)
    (chat_history : List ChatMessage) : String × Bool :=
  match env.embedQuery question with
  | .error e => (genericMsg e, false)
  | .ok query_embedding =>
    match env.retrieve query_embedding ⟨user_id, selected_document_ids⟩ 5 with
    | .error e => (genericMsg e, false)
    | .ok docs =>
      if docs.isEmpty then (noInfoMsg, false)
      else
        let prompt := buildPrompt (renderHistory chat_history) (contextOf docs) question
        if isBadApiKey env.apiKey then (configMsg, false)
        else
          match env.generate prompt with
          | .error e => (genericMsg e, true)
          | .ok none => (noRespMsg, true)
          | .ok (some t) => (if t.isEmpty then noRespMsg else t, true)

/-- Environment for the no-results witness: retrieval succeeds with no
matching chunks. -/
def envEmpty : AnswerEnv where
  embedQuery := fun _ => .ok []
  retrieve := fun _ _ _ => .ok []
  apiKey := none
  generate := fun _ => .ok none

/-- Environment for the bad-credential witness: retrieval returns a chunk
but the configured key is the placeholder. -/
def envBadKey : AnswerEnv where
  embedQuery := fun _ => .ok []
  retrieve := fun _ _ _ => .ok ["some chunk"]
  apiKey := some "your-google-api-key-here"
  generate := fun _ => .ok (some "answer")

/-! ## RagService.index_document -/

/-- The fields of the Django `Document` model instance that
`index_document` reads. -/
structure DjangoDocument where
  file_path : String
  file_extension : String
  id : Int
  name : String

/-- A Haystack document built from one chunk, before or after embedding. -/
structure HaystackDoc where
  content : List Char
  meta : ChunkMeta
deriving DecidableEq

/-- `TextChunker()` is constructed with its defaults `500, 50`, for which
termination is proved (`chunk_terminates_of_small_overlap`), so the
`getD []` never fires. -/
def chunkDefault (text : List Char) : List (List Char) :=
  (TextChunker.chunk 500 50 text).getD []

/-- The Haystack documents with their metadata tags
`user_id, document_id, document_name, chunk_index`. -/
def mkHaystackDocs (document_model : DjangoDocument) (user_id : Int)
    (text : List Char) : List HaystackDoc :=
  (chunkDefault text).enum.map fun ic =>
    { content := ic.2,
      meta := { user_id := user_id, document_id := document_model.id,
                document_name := document_model.name, chunk_index := ic.1 } }

/-- The external collaborators of `index_document`: the file system behind
the parser, the document embedder (warm-up and run collapsed into one
fallible call) and the document writer, which transforms the store. -/
structure IndexEnv where
  fs : FileSystem
  embedDocs : List HaystackDoc → Except String (List HaystackDoc)
  writeDocs : List HaystackDoc → List StoredEntry → Except String (List StoredEntry)

/-- `RagService.index_document`: parse, fail fast on whitespace-only text,
chunk, embed, write; the surrounding `try` converts every stage exception
into `False`.  Returns the success flag and the resulting store. -/
def RagService.index_document (env : IndexEnv) (document_model : DjangoDocument)
    (user_id : Int) (store : List StoredEntry) : Bool × List StoredEntry :=
  match DocumentParser.parse env.fs document_model.file_path
      document_model.file_extension with
  | .error _ => (false, store)
  | .ok text =>
    if (pyStrip text.data).isEmpty then (false, store)
    else
      match env.embedDocs (mkHaystackDocs document_model user_id text.data) with
      | .error _ => (false, store)
      | .ok embedded_docs =>
        match env.writeDocs embedded_docs store with
        | .error _ => (false, store)
        | .ok store2 => (true, store2)

/-- Document used by the indexing witness. -/
def docWitness : DjangoDocument := ⟨"f", "txt", 7, "doc"⟩

/-- Indexing environment for the witness: the text file holds one space
byte, so parsing succeeds but the stripped text is empty. -/
def envIndexWitness : IndexEnv where
  fs := { pdfPages := fun _ => .ok []
          docxParagraphs := fun _ => .ok []
          txtBytes := fun _ => .ok [32] }
  embedDocs := fun ds => .ok ds
  writeDocs := fun _ st => .ok st

/-! ## Lemmas about the Python primitives -/

theorem pySlice_within (l : List Char) (a b : Int) : pySlice l a b <:+: l :=
  (List.drop_suffix _ _).isInfix.trans (List.take_prefix _ _).isInfix

theorem pyStrip_prefix_dropWhile (l : List Char) :
    pyStrip l <+: l.dropWhile isPySpace := by
  have h2 : (l.dropWhile isPySpace).reverse.dropWhile isPySpace <:+
      (l.dropWhile isPySpace).reverse := List.dropWhile_suffix isPySpace
  have h3 := List.reverse_prefix.mpr h2
  simpa [pyStrip] using h3

theorem pyStrip_within (l : List Char) : pyStrip l <:+: l :=
  (pyStrip_prefix_dropWhile l).isInfix.trans (List.dropWhile_suffix isPySpace).isInfix

theorem pyStrip_length_le (l : List Char) : (pyStrip l).length ≤ l.length :=
  (pyStrip_within l).length_le

theorem pySlice_length_le (l : List Char) (a b : Int) (h0 : 0 ≤ a) (hab : a ≤ b) :
    (pySlice l a b).length ≤ (b - a).toNat := by
  simp only [pySlice, pyBound, List.length_drop, List.length_take]
  split_ifs <;> omega

theorem isPrefixOf_add_le (w m : List Char) (p : Nat) (hm : m ≠ [])
    (h : m.isPrefixOf (w.drop p) = true) : p + m.length ≤ w.length := by
  have h1 := (List.isPrefixOf_iff_prefix.mp h).length_le
  rw [List.length_drop] at h1
  have h2 : 0 < m.length := List.length_pos.mpr hm
  omega

theorem rfindAux_some (w m : List Char) :
    ∀ k p, rfindAux w m k = some p → m.isPrefixOf (w.drop p) = true ∧ p ≤ k := by
  intro k
  induction k with
  | zero =>
    intro p h
    rw [rfindAux] at h
    split_ifs at h with hp
    · cases h
      exact ⟨by simpa using hp, Nat.le_refl 0⟩
  | succ k ih =>
    intro p h
    rw [rfindAux] at h
    split_ifs at h with hp
    · cases h
      exact ⟨hp, Nat.le_refl _⟩
    · obtain ⟨h1, h2⟩ := ih p h
      exact ⟨h1, h2.trans (Nat.le_succ k)⟩

theorem rfindAux_ge (w m : List Char) :
    ∀ k p, rfindAux w m k = some p →
      ∀ q, q ≤ k → m.isPrefixOf (w.drop q) = true → q ≤ p := by
  intro k
  induction k with
  | zero =>
    intro p h q hq _
    omega
  | succ k ih =>
    intro p h q hq hocc
    rw [rfindAux] at h
    split_ifs at h with hp
    · cases h
      exact hq
    · rcases Nat.lt_or_ge q (k + 1) with hlt | hge
      · exact ih p h q (by omega) hocc
      · have : q = k + 1 := by omega
        rw [this] at hocc
        exact absurd hocc (by simp [hp])

theorem rfindAux_none (w m : List Char) :
    ∀ k, rfindAux w m k = none → ∀ q, q ≤ k → m.isPrefixOf (w.drop q) = false := by
  intro k
  induction k with
  | zero =>
    intro h q hq
    rw [rfindAux] at h
    split_ifs at h with hp
    have : q = 0 := by omega
    rw [this]
    simpa only [Bool.not_eq_true] using hp
  | succ k ih =>
    intro h q hq
    rw [rfindAux] at h
    split_ifs at h with hp
    rcases Nat.lt_or_ge q (k + 1) with hlt | hge
    · exact ih h q (by omega)
    · have : q = k + 1 := by omega
      rw [this]
      simpa only [Bool.not_eq_true] using hp

theorem pyRfind_some (w m : List Char) (p : Nat) (h : pyRfind w m = some p) :
    m.isPrefixOf (w.drop p) = true :=
  (rfindAux_some w m w.length p h).1

theorem pyRfind_max (w m : List Char) (p : Nat) (hm : m ≠ [])
    (h : pyRfind w m = some p) :
    ∀ q, occursAt w m q = true → q ≤ p := by
  intro q hq
  have hb := isPrefixOf_add_le w m q hm hq
  exact rfindAux_ge w m w.length p h q (by omega) hq

theorem pyRfind_none (w m : List Char) (hm : m ≠ []) (h : pyRfind w m = none) :
    ∀ q, occursAt w m q = false := by
  intro q
  by_cases hle : q ≤ w.length
  · exact rfindAux_none w m w.length h q hle
  · have : w.drop q = [] := List.drop_eq_nil_of_le (by omega)
    rw [occursAt, this]
    cases m with
    | nil => exact absurd rfl hm
    | cons a t => rfl

/-! ## Lemmas about the sentence-boundary adjustment -/

theorem marker_facts : ∀ m ∈ markerList, m.length = 2 ∧ m ≠ [] := by decide

theorem tryMarker_eq_some (chunk_size : Nat) (w m : List Char) (e : Nat)
    (h : tryMarker chunk_size w m = some e) :
    ∃ p, pyRfind w m = some p ∧ chunk_size / 2 < p ∧ e = p + m.length := by
  rw [tryMarker] at h
  cases hr : pyRfind w m with
  | none => rw [hr] at h; cases h
  | some p =>
    rw [hr, Option.some_bind] at h
    split_ifs at h with hp
    cases h
    exact ⟨p, rfl, hp, rfl⟩

theorem tryMarker_eq_none (chunk_size : Nat) (w m : List Char)
    (h : tryMarker chunk_size w m = none) (p : Nat) (hp : pyRfind w m = some p) :
    p ≤ chunk_size / 2 := by
  rw [tryMarker, hp, Option.some_bind] at h
  by_contra hc
  rw [if_pos (by omega)] at h
  cases h

theorem adjustEnd_eq_some (chunk_size : Nat) (w : List Char) (e : Nat)
    (h : adjustEnd chunk_size w = some e) :
    ∃ m ∈ markerList, tryMarker chunk_size w m = some e :=
  List.exists_of_findSome?_eq_some h

theorem adjustEnd_eq_none (chunk_size : Nat) (w : List Char)
    (h : adjustEnd chunk_size w = none) :
    ∀ m ∈ markerList, tryMarker chunk_size w m = none :=
  List.findSome?_eq_none_iff.mp h

theorem adjustEnd_bounds (chunk_size : Nat) (w : List Char) (e : Nat)
    (h : adjustEnd chunk_size w = some e) :
    chunk_size / 2 + 3 ≤ e ∧ e ≤ w.length := by
  obtain ⟨m, hm, ht⟩ := adjustEnd_eq_some chunk_size w e h
  obtain ⟨p, hr, hp, he⟩ := tryMarker_eq_some chunk_size w m e ht
  obtain ⟨hlen, hne⟩ := marker_facts m hm
  have hocc := pyRfind_some w m p hr
  have hb := isPrefixOf_add_le w m p hne hocc
  omega

theorem boundaryEnd_le (chunk_size : Nat) (text : List Char) (start : Int)
    (h0 : 0 ≤ start) :
    boundaryEnd chunk_size text start ≤ start + chunk_size := by
  rw [boundaryEnd]
  split_ifs with hr
  · cases ha : adjustEnd chunk_size (pySlice text start (start + chunk_size)) with
    | none => simp [ha]
    | some e =>
      simp only [ha]
      have h2 := (adjustEnd_bounds _ _ _ ha).2
      have h3 := pySlice_length_le text start (start + chunk_size) h0 (by omega)
      omega
  · exact le_refl _

theorem boundaryEnd_ge (chunk_size : Nat) (text : List Char) (start : Int) :
    start + ((min (chunk_size / 2 + 3) chunk_size : Nat) : Int) ≤
      boundaryEnd chunk_size text start := by
  rw [boundaryEnd]
  split_ifs with hr
  · cases ha : adjustEnd chunk_size (pySlice text start (start + chunk_size)) with
    | none =>
      simp only [ha]
      have : (min (chunk_size / 2 + 3) chunk_size : Nat) ≤ chunk_size := Nat.min_le_right _ _
      omega
    | some e =>
      simp only [ha]
      have h1 := (adjustEnd_bounds _ _ _ ha).1
      have : (min (chunk_size / 2 + 3) chunk_size : Nat) ≤ chunk_size / 2 + 3 :=
        Nat.min_le_left _ _
      omega
  · have : (min (chunk_size / 2 + 3) chunk_size : Nat) ≤ chunk_size := Nat.min_le_right _ _
    omega

/-! ## Termination and chunk bounds for the chunker loop -/

theorem chunkGo_total (chunk_size chunk_overlap : Nat) (text : List Char)
    (h1 : chunk_overlap < chunk_size) (h2 : chunk_overlap < chunk_size / 2 + 3) :
    ∀ (fuel : Nat) (start : Int) acc, 0 ≤ start →
      (text.length : Int) ≤ start + (fuel : Int) →
      (∀ c ∈ acc, c.length ≤ chunk_size) →
      ∃ l, chunkGo chunk_size chunk_overlap text fuel start acc = some l ∧
        ∀ c ∈ l, c.length ≤ chunk_size := by
  have hm1 : chunk_overlap < min (chunk_size / 2 + 3) chunk_size := Nat.lt_min.mpr ⟨h2, h1⟩
  intro fuel
  induction fuel with
  | zero =>
    intro start acc h0 hf hacc
    rw [chunkGo, if_neg (by push_cast at hf; omega)]
    exact ⟨acc, rfl, hacc⟩
  | succ n ih =>
    intro start acc h0 hf hacc
    by_cases hlt : start < (text.length : Int)
    · rw [chunkGo, if_pos hlt]
      have hge := boundaryEnd_ge chunk_size text start
      have hle := boundaryEnd_le chunk_size text start h0
      have hcast : (chunk_overlap : Int) <
          ((min (chunk_size / 2 + 3) chunk_size : Nat) : Int) := by exact_mod_cast hm1
      have hf2 : (text.length : Int) ≤ start + (n : Int) + 1 := by push_cast at hf; omega
      have hacc2 : ∀ c ∈ (if (pyStrip (pySlice text start
          (boundaryEnd chunk_size text start))).isEmpty then acc
          else acc ++ [pyStrip (pySlice text start (boundaryEnd chunk_size text start))]),
          c.length ≤ chunk_size := by
        intro c hc
        split_ifs at hc with hemp
        · exact hacc c hc
        · rcases List.mem_append.mp hc with hmem | hmem
          · exact hacc c hmem
          · have hceq : c = pyStrip (pySlice text start (boundaryEnd chunk_size text start)) := by
              simpa using hmem
            have hsl := pySlice_length_le text start (boundaryEnd chunk_size text start) h0
              (by omega)
            have hst := pyStrip_length_le (pySlice text start (boundaryEnd chunk_size text start))
            rw [hceq]
            omega
      exact ih _ _ (by omega) (by omega) hacc2
    · rw [chunkGo, if_neg hlt]
      exact ⟨acc, rfl, hacc⟩

/-! ## Chunk content lemma: every emitted chunk is a stripped slice -/

theorem chunkGo_chunks (chunk_size chunk_overlap : Nat) (text : List Char) :
    ∀ (fuel : Nat) (start : Int) acc l,
      chunkGo chunk_size chunk_overlap text fuel start acc = some l →
      (∀ c ∈ acc, c ≠ [] ∧ c <:+: text) → ∀ c ∈ l, c ≠ [] ∧ c <:+: text := by
  intro fuel
  induction fuel with
  | zero =>
    intro start acc l h hacc
    by_cases hlt : start < (text.length : Int)
    · rw [chunkGo, if_pos hlt] at h
      cases h
    · rw [chunkGo, if_neg hlt] at h
      cases h
      exact hacc
  | succ n ih =>
    intro start acc l h hacc
    by_cases hlt : start < (text.length : Int)
    · rw [chunkGo, if_pos hlt] at h
      apply ih _ _ _ h
      intro c hc
      split_ifs at hc with hemp
      · exact hacc c hc
      · rcases List.mem_append.mp hc with hmem | hmem
        · exact hacc c hmem
        · have hceq : c = pyStrip (pySlice text start (boundaryEnd chunk_size text start)) := by
            simpa using hmem
          constructor
          · rw [hceq]
            intro hnil
            rw [hnil] at hemp
            simp at hemp
          · rw [hceq]
            exact (pyStrip_within _).trans (pySlice_within _ _ _)
    · rw [chunkGo, if_neg hlt] at h
      cases h
      exact hacc

/-! ## Claim theorems for the chunker -/

theorem loopText_step (n : Nat) (acc : List (List Char)) :
    chunkGo 10 8 loopText (n + 1) 0 acc =
      chunkGo 10 8 loopText n 0 (acc ++ [pyStrip (pySlice loopText 0 8)]) := by
  rfl

theorem loopText_never_terminates :
    ∀ (fuel : Nat) (acc : List (List Char)), chunkGo 10 8 loopText fuel 0 acc = none := by
  intro fuel
  induction fuel with
  | zero => intro acc; rfl
  | succ n ih =>
    intro acc
    rw [loopText_step]
    exact ih _

/-- C2 counterexample.  The claim quantifies over every configuration with
`chunk_size > overlap ≥ 0`, but at `chunk_size = 10, overlap = 8` on
`loopText = "aaaaaa. aaa"` the first window's sentence-boundary adjustment
moves `end` to `8`, so the next start is `8 - 8 = 0`: `start` does not
advance and the loop never terminates (no amount of fuel yields a result,
and in particular `TextChunker.chunk` runs out of fuel). -/
theorem chunk_termination_counterexample :
    10 > 8 ∧ 8 ≥ 0 ∧ 0 < loopText.length ∧
    boundaryEnd 10 loopText 0 - 8 = 0 ∧
    (∀ (fuel : Nat) (acc : List (List Char)), chunkGo 10 8 loopText fuel 0 acc = none) ∧
    TextChunker.chunk 10 8 loopText = none := by
  exact ⟨by omega, by omega, by decide, by decide, loopText_never_terminates,
    loopText_never_terminates 11 []⟩

/-- C2 amended: for `chunk_size > overlap ≥ 0` with additionally
`overlap < chunk_size / 2 + 3` (which holds for the default configuration
`500, 50`), `start` strictly advances on each loop iteration, the chunker
terminates, and every emitted chunk has length at most
`chunk_size ≤ chunk_size + 2` (two is the length of every sentence marker). -/
theorem chunk_terminates_of_small_overlap (chunk_size chunk_overlap : Nat)
    (text : List Char) (h1 : chunk_overlap < chunk_size)
    (h2 : chunk_overlap < chunk_size / 2 + 3) :
    (∀ start : Int, 0 ≤ start → start < (text.length : Int) →
      start < boundaryEnd chunk_size text start - chunk_overlap) ∧
    ∃ l, TextChunker.chunk chunk_size chunk_overlap text = some l ∧
      ∀ c ∈ l, c.length ≤ chunk_size + 2 := by
  have hm1 : chunk_overlap < min (chunk_size / 2 + 3) chunk_size := Nat.lt_min.mpr ⟨h2, h1⟩
  have hcast : (chunk_overlap : Int) <
      ((min (chunk_size / 2 + 3) chunk_size : Nat) : Int) := by exact_mod_cast hm1
  constructor
  · intro start h0 hlt
    have hge := boundaryEnd_ge chunk_size text start
    omega
  · obtain ⟨l, hl, hb⟩ := chunkGo_total chunk_size chunk_overlap text h1 h2
      text.length 0 [] (le_refl 0) (by omega) (by simp)
    exact ⟨l, hl, fun c hc => (hb c hc).trans (by omega)⟩

theorem chunk_terminates_witness :
    (50 < 500 ∧ 50 < 500 / 2 + 3) ∧
    ((∀ start : Int, 0 ≤ start → start < ("short text".data.length : Int) →
      start < boundaryEnd 500 "short text".data start - 50) ∧
    ∃ l, TextChunker.chunk 500 50 "short text".data = some l ∧
      ∀ c ∈ l, c.length ≤ 500 + 2) :=
  ⟨⟨by omega, by omega⟩,
    chunk_terminates_of_small_overlap 500 50 "short text".data (by omega) (by omega)⟩

/-- C10: whenever the chunker loop returns a result, every element of that
result is a nonempty contiguous substring of the input text (a slice with
surrounding whitespace stripped; nothing is fabricated or rewritten). -/
theorem chunk_pieces_are_substrings (chunk_size chunk_overlap fuel : Nat)
    (text : List Char) (l : List (List Char))
    (h : chunkGo chunk_size chunk_overlap text fuel 0 [] = some l) :
    ∀ c ∈ l, c ≠ [] ∧ c <:+: text :=
  chunkGo_chunks chunk_size chunk_overlap text fuel 0 [] l h (by simp)

theorem chunk_pieces_witness :
    chunkGo 5 1 "hi".data 1 0 [] = some [['h', 'i']] ∧
    (['h', 'i'] ≠ [] ∧ ['h', 'i'] <:+: "hi".data) :=
  ⟨by decide, chunk_pieces_are_substrings 5 1 1 "hi".data [['h', 'i']] (by decide)
    ['h', 'i'] (by simp)⟩

/-- C5 counterexample.  On `priorityText` with `chunk_size = 10`, the window
`"aaaaaa. ! "` has its last marker occurrence of any kind (`"! "`) at
index 8, at or after the midpoint, so the claimed rule cuts at
`0 + 8 + 2 = 10`; the code instead tries `". "` first, finds it at index 6,
and cuts at `0 + 6 + 2 = 8`. -/
theorem chunk_cut_rule_counterexample :
    boundaryEnd 10 priorityText 0 = 8 ∧
    specBoundaryEnd 10 priorityText 0 = 10 ∧
    occursAt (pySlice priorityText 0 10) ['!', ' '] 8 = true ∧
    10 / 2 ≤ 8 ∧
    boundaryEnd 10 priorityText 0 ≠ specBoundaryEnd 10 priorityText 0 := by
  refine ⟨by decide, by decide, by decide, by omega, by decide⟩

/-- C5 amended: in every window that does not reach the end of the text the
code examines the marker types in the fixed order `". "`, `".\n"`, `"! "`,
`"? "`; the cut is moved exactly when some marker type has an occurrence
strictly after `chunk_size / 2`, and then it is placed immediately after the
last occurrence of the first such marker type in that order — in particular
always immediately after a marker occurrence lying strictly after the
midpoint, but not necessarily the last occurrence of *any* marker. -/
theorem chunk_cut_characterization (chunk_size : Nat) (text : List Char) (start : Int)
    (hlt : start + (chunk_size : Int) < (text.length : Int)) :
    (boundaryEnd chunk_size text start = start + chunk_size ∨
      ∃ m ∈ markerList, ∃ p,
        occursAt (pySlice text start (start + chunk_size)) m p = true ∧
        chunk_size / 2 < p ∧
        boundaryEnd chunk_size text start = start + ((p + m.length : Nat) : Int) ∧
        ∀ q, occursAt (pySlice text start (start + chunk_size)) m q = true → q ≤ p) ∧
    ((∀ m ∈ markerList, ∀ p,
        occursAt (pySlice text start (start + chunk_size)) m p = true → p ≤ chunk_size / 2) →
      boundaryEnd chunk_size text start = start + chunk_size) := by
  constructor
  · rw [boundaryEnd, if_pos hlt]
    cases ha : adjustEnd chunk_size (pySlice text start (start + chunk_size)) with
    | none => exact Or.inl rfl
    | some e =>
      obtain ⟨m, hm, ht⟩ := adjustEnd_eq_some _ _ _ ha
      obtain ⟨p, hr, hp, he⟩ := tryMarker_eq_some _ _ _ _ ht
      obtain ⟨_, hne⟩ := marker_facts m hm
      refine Or.inr ⟨m, hm, p, pyRfind_some _ _ _ hr, hp, by rw [he], ?_⟩
      exact pyRfind_max _ _ _ hne hr
  · intro hnone
    rw [boundaryEnd, if_pos hlt]
    cases ha : adjustEnd chunk_size (pySlice text start (start + chunk_size)) with
    | none => rfl
    | some e =>
      obtain ⟨m, hm, ht⟩ := adjustEnd_eq_some _ _ _ ha
      obtain ⟨p, hr, hp, _⟩ := tryMarker_eq_some _ _ _ _ ht
      have := hnone m hm p (pyRfind_some _ _ _ hr)
      omega

theorem chunk_cut_characterization_witness :
    ((0 : Int) + (10 : Nat) < (priorityText.length : Int)) ∧
    ((boundaryEnd 10 priorityText 0 = 0 + (10 : Nat) ∨
      ∃ m ∈ markerList, ∃ p,
        occursAt (pySlice priorityText 0 (0 + (10 : Nat))) m p = true ∧
        10 / 2 < p ∧
        boundaryEnd 10 priorityText 0 = 0 + ((p + m.length : Nat) : Int) ∧
        ∀ q, occursAt (pySlice priorityText 0 (0 + (10 : Nat))) m q = true → q ≤ p) ∧
    ((∀ m ∈ markerList, ∀ p,
        occursAt (pySlice priorityText 0 (0 + (10 : Nat))) m p = true → p ≤ 10 / 2) →
      boundaryEnd 10 priorityText 0 = 0 + (10 : Nat))) :=
  ⟨by decide, chunk_cut_characterization 10 priorityText 0 (by decide)⟩

/-! ## Claim theorems for the parser -/

/-- C8: an extension that is not pdf, docx or txt after lowercasing makes
`DocumentParser.parse` fail with the unsupported-format error, and the
result does not depend on the file system or path at all — no I/O is
performed; for supported extensions the dispatch is case-insensitive. -/
theorem parse_unsupported_before_io (fs fs2 : FileSystem)
    (file_path file_path2 extension : String) :
    (pyLower extension ∉ supportedFormats →
      DocumentParser.parse fs file_path extension =
        .error (.unsupported extension) ∧
      DocumentParser.parse fs file_path extension =
        DocumentParser.parse fs2 file_path2 extension) ∧
    (pyLower extension ∈ supportedFormats →
      DocumentParser.parse fs file_path extension =
        DocumentParser.parse fs file_path (pyLower extension)) := by
  constructor
  · intro h
    simp only [supportedFormats, List.mem_cons, List.not_mem_nil, or_false] at h
    push_neg at h
    obtain ⟨h1, h2, h3⟩ := h
    rw [DocumentParser.parse, if_neg h1, if_neg h2, if_neg h3]
    rw [DocumentParser.parse, if_neg h1, if_neg h2, if_neg h3]
    exact ⟨rfl, rfl⟩
  · intro h
    simp only [supportedFormats, List.mem_cons, List.not_mem_nil, or_false] at h
    rcases h with h | h | h <;>
      rw [DocumentParser.parse, DocumentParser.parse, h] <;> rfl

theorem parse_unsupported_witness :
    (pyLower "XLSX" ∉ supportedFormats ∧
      DocumentParser.parse fsWitness "f" "XLSX" =
        .error (.unsupported "XLSX")) ∧
    (pyLower "TXT" ∈ supportedFormats ∧
      DocumentParser.parse fsWitness "f" "TXT" =
        DocumentParser.parse fsWitness "f" (pyLower "TXT")) :=
  ⟨⟨by decide,
    ((parse_unsupported_before_io fsWitness fsWitness "f" "f" "XLSX").1 (by decide)).1⟩,
   ⟨by decide,
    (parse_unsupported_before_io fsWitness fsWitness "f" "f" "TXT").2 (by decide)⟩⟩

theorem decodeTxt_utf8 (bytes : List Nat) (cs : List Char)
    (h : utf8Decode bytes = some cs) : decodeTxt bytes = some cs := by
  show (match utf8Decode bytes with
    | some cs => some cs
    | none => latin1Decode bytes) = some cs
  rw [h]

theorem decodeTxt_fallback (bytes : List Nat) (h : utf8Decode bytes = none) :
    decodeTxt bytes = latin1Decode bytes := by
  show (match utf8Decode bytes with
    | some cs => some cs
    | none => latin1Decode bytes) = latin1Decode bytes
  rw [h]

theorem latin1_total (bytes : List Nat) (h : ∀ b ∈ bytes, b < 256) :
    ∃ cs, latin1Decode bytes = some cs := by
  induction bytes with
  | nil => exact ⟨[], rfl⟩
  | cons b rest ih =>
    obtain ⟨cs, hcs⟩ := ih (fun x hx => h x (List.mem_cons_of_mem b hx))
    refine ⟨Char.ofNat b :: cs, ?_⟩
    rw [latin1Decode, if_pos (h b (List.mem_cons_self b rest)), hcs]
    rfl

theorem parse_txt_eq (fs : FileSystem) (file_path : String) (bytes : List Nat)
    (hok : fs.txtBytes file_path = .ok bytes) :
    DocumentParser.parse_txt fs file_path =
      match decodeTxt bytes with
      | some cs => Except.ok (String.mk cs)
      | none => Except.error (ParseError.failure "UnicodeDecodeError") := by
  rw [DocumentParser.parse_txt, hok]

theorem parse_txt_ok (fs : FileSystem) (file_path : String) (bytes : List Nat)
    (cs : List Char) (hok : fs.txtBytes file_path = .ok bytes)
    (hdec : decodeTxt bytes = some cs) :
    DocumentParser.parse_txt fs file_path = .ok (String.mk cs) := by
  rw [parse_txt_eq fs file_path bytes hok, hdec]

/-- C9: on a text file `DocumentParser.parse_txt` never fails because of
encoding alone: if the bytes are not valid UTF-8, Latin-1 — total on every
byte sequence — decodes them, so the decode-error branch never escapes. -/
theorem parse_txt_never_decode_error (fs : FileSystem) (file_path : String)
    (bytes : List Nat) (hok : fs.txtBytes file_path = .ok bytes)
    (hb : ∀ b ∈ bytes, b < 256) :
    (∃ s, DocumentParser.parse_txt fs file_path = .ok s) ∧
    (utf8Decode bytes = none →
      ∃ cs, latin1Decode bytes = some cs ∧
        DocumentParser.parse_txt fs file_path = .ok (String.mk cs)) := by
  obtain ⟨cs1, h1⟩ := latin1_total bytes hb
  constructor
  · cases hu : utf8Decode bytes with
    | some c =>
      exact ⟨String.mk c,
        parse_txt_ok fs file_path bytes c hok (decodeTxt_utf8 bytes c hu)⟩
    | none =>
      exact ⟨String.mk cs1, parse_txt_ok fs file_path bytes cs1 hok
        (by rw [decodeTxt_fallback bytes hu, h1])⟩
  · intro hu
    exact ⟨cs1, h1, parse_txt_ok fs file_path bytes cs1 hok
      (by rw [decodeTxt_fallback bytes hu, h1])⟩

theorem parse_txt_witness :
    (fsWitness.txtBytes "f" = .ok [255] ∧ ∀ b ∈ [255], b < 256) ∧
    ∃ s, DocumentParser.parse_txt fsWitness "f" = .ok s :=
  ⟨⟨rfl, by decide⟩,
    (parse_txt_never_decode_error fsWitness "f" [255] rfl (by decide)).1⟩

/-! ## Claim theorem for deletion -/

/-- C4: with distinct entry ids (ChromaDB guarantees unique ids),
`delete_document_embeddings` removes exactly the entries whose metadata
matches both the document id and the user id; every entry with a different
document id or a different user survives — deletion is never cross-user. -/
theorem delete_document_embeddings_exact (document_id user_id : Int)
    (store : List StoredEntry) (hids : (store.map (·.id)).Nodup) :
    RagService.delete_document_embeddings document_id user_id store =
      store.filter fun e =>
        !(e.meta.document_id == document_id && e.meta.user_id == user_id) := by
  rw [RagService.delete_document_embeddings]
  split_ifs with hemp
  · have hall : ∀ e ∈ store,
        (e.meta.document_id == document_id && e.meta.user_id == user_id) = false := by
      intro e he
      by_contra hne
      have hmem : e ∈ filter_documents store document_id user_id :=
        List.mem_filter.mpr ⟨he, by simpa using hne⟩
      rw [List.isEmpty_iff.mp hemp] at hmem
      cases hmem
    symm
    apply List.filter_eq_self.mpr
    intro a ha
    simp [hall a ha]
  · rw [delete_documents]
    apply List.filter_congr
    intro e he
    have hkey : (((filter_documents store document_id user_id).map (·.id)).contains e.id)
        = (e.meta.document_id == document_id && e.meta.user_id == user_id) := by
      by_cases hp : (e.meta.document_id == document_id && e.meta.user_id == user_id) = true
      · rw [hp]
        exact List.elem_iff.mpr (List.mem_map.mpr ⟨e, List.mem_filter.mpr ⟨he, hp⟩, rfl⟩)
      · rw [Bool.eq_false_iff.mpr hp]
        rw [Bool.eq_false_iff]
        intro hcont
        obtain ⟨e2, he2, hid⟩ := List.mem_map.mp (List.elem_iff.mp hcont)
        obtain ⟨he2s, hp2⟩ := List.mem_filter.mp he2
        have : e2 = e := List.inj_on_of_nodup_map hids he2s he hid
        rw [this] at hp2
        exact hp hp2
    rw [hkey]

theorem delete_document_embeddings_witness :
    ((storeWitness.map (·.id)).Nodup) ∧
    RagService.delete_document_embeddings 5 1 storeWitness =
      storeWitness.filter (fun e =>
        !(e.meta.document_id == (5 : Int) && e.meta.user_id == (1 : Int))) :=
  ⟨by decide, delete_document_embeddings_exact 5 1 storeWitness (by decide)⟩

/-! ## Claim theorems for question answering -/

/-- C6: when retrieval succeeds with an empty set of chunks,
`answer_question` returns exactly the fixed no-results message and the
model call is never attempted. -/
theorem answer_question_no_results (env : AnswerEnv) (question : String)
    (user_id : Int) (selected_document_ids : List Int)
    (chat_history : List ChatMessage) (query_embedding : List Int)
    (h1 : env.embedQuery question = .ok query_embedding)
    (h2 : env.retrieve query_embedding ⟨user_id, selected_document_ids⟩ 5 = .ok []) :
    RagService.answer_question env question user_id selected_document_ids chat_history =
      (noInfoMsg, false) := by
  simp [RagService.answer_question, h1, h2]

theorem answer_question_no_results_witness :
    (envEmpty.embedQuery "q" = .ok [] ∧
      envEmpty.retrieve [] ⟨1, [1]⟩ 5 = .ok []) ∧
    RagService.answer_question envEmpty "q" 1 [1] [] = (noInfoMsg, false) :=
  ⟨⟨rfl, rfl⟩, answer_question_no_results envEmpty "q" 1 [1] [] [] rfl rfl⟩

/-- C7: when retrieval succeeds with chunks but the credential is missing,
empty or the placeholder, `answer_question` returns exactly the fixed
configuration-error message without attempting the model call, and that
message differs from the generic failure message whatever the exception
text is. -/
theorem answer_question_bad_key (env : AnswerEnv) (question : String)
    (user_id : Int) (selected_document_ids : List Int)
    (chat_history : List ChatMessage) (query_embedding : List Int)
    (docs : List String)
    (h1 : env.embedQuery question = .ok query_embedding)
    (h2 : env.retrieve query_embedding ⟨user_id, selected_document_ids⟩ 5 = .ok docs)
    (h3 : docs.isEmpty = false)
    (h4 : isBadApiKey env.apiKey = true) :
    RagService.answer_question env question user_id selected_document_ids chat_history =
      (configMsg, false) ∧
    ∀ e, configMsg ≠ genericMsg e := by
  constructor
  · simp [RagService.answer_question, h1, h2, h3, h4]
  · intro e heq
    have hg : (genericMsg e).data =
        'A' :: ("n error occurred while processing your question: ".data ++ e.data) := by
      rw [genericMsg, String.data_append]
      rfl
    have hc : configMsg.data = (genericMsg e).data := congrArg String.data heq
    rw [hg, configMsg] at hc
    injection hc with h5 h6
    exact absurd h5 (by decide)

theorem answer_question_bad_key_witness :
    (envBadKey.embedQuery "q" = .ok [] ∧
      envBadKey.retrieve [] ⟨1, [1]⟩ 5 = .ok ["some chunk"] ∧
      (["some chunk"] : List String).isEmpty = false ∧
      isBadApiKey envBadKey.apiKey = true) ∧
    (RagService.answer_question envBadKey "q" 1 [1] [] = (configMsg, false) ∧
      ∀ e, configMsg ≠ genericMsg e) :=
  ⟨⟨rfl, rfl, rfl, rfl⟩,
    answer_question_bad_key envBadKey "q" 1 [1] [] [] ["some chunk"] rfl rfl rfl rfl⟩

/-- C1: `answer_question` is a total function into strings — in the model
every failure path of the `try` body is an explicit branch — and its result
is always one of the user-displayable outcomes: the catch-all error
message, the fixed no-results message, the fixed configuration-error
message, the fixed empty-response message, or the nonempty text returned by
the model call. -/
theorem answer_question_user_displayable (env : AnswerEnv) (question : String)
    (user_id : Int) (selected_document_ids : List Int)
    (chat_history : List ChatMessage) :
    (∃ e, (RagService.answer_question env question user_id selected_document_ids
        chat_history).1 = genericMsg e) ∨
    (RagService.answer_question env question user_id selected_document_ids
        chat_history).1 = noInfoMsg ∨
    (RagService.answer_question env question user_id selected_document_ids
        chat_history).1 = configMsg ∨
    (RagService.answer_question env question user_id selected_document_ids
        chat_history).1 = noRespMsg ∨
    (∃ prompt t, env.generate prompt = .ok (some t) ∧ t.isEmpty = false ∧
      (RagService.answer_question env question user_id selected_document_ids
        chat_history).1 = t) := by
  cases h1 : env.embedQuery question with
  | error e => exact Or.inl ⟨e, by simp [RagService.answer_question, h1]⟩
  | ok query_embedding =>
    cases h2 : env.retrieve query_embedding ⟨user_id, selected_document_ids⟩ 5 with
    | error e => exact Or.inl ⟨e, by simp [RagService.answer_question, h1, h2]⟩
    | ok docs =>
      by_cases h3 : docs.isEmpty
      · exact Or.inr (Or.inl (by simp [RagService.answer_question, h1, h2, h3]))
      · by_cases h4 : isBadApiKey env.apiKey
        · exact Or.inr (Or.inr (Or.inl
            (by simp [RagService.answer_question, h1, h2, h3, h4])))
        · cases h5 : env.generate (buildPrompt (renderHistory chat_history)
              (contextOf docs) question) with
          | error e =>
            exact Or.inl ⟨e, by simp [RagService.answer_question, h1, h2, h3, h4, h5]⟩
          | ok r =>
            cases r with
            | none =>
              exact Or.inr (Or.inr (Or.inr (Or.inl
                (by simp [RagService.answer_question, h1, h2, h3, h4, h5]))))
            | some t =>
              by_cases h6 : t.isEmpty
              · exact Or.inr (Or.inr (Or.inr (Or.inl
                  (by simp [RagService.answer_question, h1, h2, h3, h4, h5, h6]))))
              · refine Or.inr (Or.inr (Or.inr (Or.inr
                  ⟨buildPrompt (renderHistory chat_history) (contextOf docs) question,
                    t, h5, by simpa using h6, ?_⟩)))
                simp [RagService.answer_question, h1, h2, h3, h4, h5, h6]

/-! ## Claim theorem for indexing -/

/-- C3: `index_document` returns its boolean and nothing else: the flag is
true exactly when parsing produced non-whitespace text and both the
embedding and the write stage succeeded; when the parsed text strips to
empty the call returns false with the store untouched — no write happens;
any stage error likewise yields false. -/
theorem index_document_spec (env : IndexEnv) (document_model : DjangoDocument)
    (user_id : Int) (store : List StoredEntry) :
    ((RagService.index_document env document_model user_id store).1 = true ↔
      ∃ text embedded_docs store2,
        DocumentParser.parse env.fs document_model.file_path
          document_model.file_extension = .ok text ∧
        (pyStrip text.data).isEmpty = false ∧
        env.embedDocs (mkHaystackDocs document_model user_id text.data) =
          .ok embedded_docs ∧
        env.writeDocs embedded_docs store = .ok store2) ∧
    (∀ text,
      DocumentParser.parse env.fs document_model.file_path
        document_model.file_extension = .ok text →
      (pyStrip text.data).isEmpty = true →
      RagService.index_document env document_model user_id store = (false, store)) := by
  constructor
  · constructor
    · intro hb
      cases hp : DocumentParser.parse env.fs document_model.file_path
          document_model.file_extension with
      | error e => simp [RagService.index_document, hp] at hb
      | ok text =>
        by_cases hs : (pyStrip text.data).isEmpty
        · simp [RagService.index_document, hp, hs] at hb
        · cases he : env.embedDocs (mkHaystackDocs document_model user_id text.data) with
          | error e => simp [RagService.index_document, hp, hs, he] at hb
          | ok embedded_docs =>
            cases hw : env.writeDocs embedded_docs store with
            | error e => simp [RagService.index_document, hp, hs, he, hw] at hb
            | ok store2 =>
              exact ⟨text, embedded_docs, store2, rfl, by simpa using hs, he, hw⟩
    · rintro ⟨text, embedded_docs, store2, hp, hs, he, hw⟩
      simp [RagService.index_document, hp, hs, he, hw]
  · intro text hp hs
    simp [RagService.index_document, hp, hs]

theorem index_document_witness :
    (DocumentParser.parse envIndexWitness.fs docWitness.file_path
        docWitness.file_extension = .ok " " ∧
      (pyStrip " ".data).isEmpty = true) ∧
    RagService.index_document envIndexWitness docWitness 7 [] = (false, []) :=
  ⟨⟨rfl, rfl⟩,
    (index_document_spec envIndexWitness docWitness 7 []).2 " " rfl rfl⟩
